import Mathlib

set_option maxHeartbeats 1000000

namespace JsonReplace

/-- Error outcomes of the transform. `unsupportedValue` models the
`std::invalid_argument` thrown by `read_json_value` with the fixed message
`JSON_READ_ERROR_MSG`; `outOfBounds` models a scan that runs past the input
terminator, which is undefined behavior in the C++ source and never happens on
grammar-conforming inputs. -/
inductive JsonError where
  | unsupportedValue
  | outOfBounds
  deriving DecidableEq, Repr

/-- Model of `read_json_filler`: copies characters from the source until the
terminator (end of list), a double quote, or an open bracket; returns the
copied span and the remaining source. -/
def read_json_filler : List Char → List Char × List Char
  | [] => ([], [])
  | c :: rest =>
    if c = '"' ∨ c = '[' then ([], c :: rest)
    else
      let r := read_json_filler rest
      (c :: r.1, r.2)

/-- Model of the body-scanning loop shared by `read_json_string` and
`read_and_replace_json_string`: starting with the escape flag `escaped`, it
consumes characters while the current one is not a double quote or the flag
(set when the previous character was a backslash) is on. Returns the consumed
span and the rest of the source, whose head is the terminating quote. `none`
models the C++ loop running past the terminator (undefined behavior). -/
def scan_string_body : List Char → Bool → Option (List Char × List Char)
  | [], _ => none
  | c :: rest, escaped =>
    if c = '"' ∧ escaped = false then some ([], c :: rest)
    else
      match scan_string_body rest (c == '\\') with
      | none => none
      | some (body, rem) => some (c :: body, rem)

/-- Model of `read_json_string`: copies the opening quote, the body (with the
escape-tracking loop), and the closing quote verbatim. Returns the copied
output and the remaining source. -/
def read_json_string (src : List Char) : Option (List Char × List Char) :=
  match src with
  | [] => none
  | c :: rest =>
    match scan_string_body rest false with
    | none => none
    | some (body, rem) =>
      match rem with
      | [] => none
      | q :: rem2 => some (c :: body ++ [q], rem2)

/-- Model of `read_and_replace_json_string`: copies the opening quote; if the
next character is already a closing quote (empty string) copies it and stops
without masking; otherwise scans past the body with the escape-tracking loop,
discards it, and emits the single `REPLACE_CHAR` followed by the closing
quote. -/
def read_and_replace_json_string (src : List Char) : Option (List Char × List Char) :=
  match src with
  | [] => none
  | c :: rest =>
    if rest.head? = some '"' then some ([c, '"'], rest.tail)
    else
      match scan_string_body rest false with
      | none => none
      | some (_, rem) =>
        match rem with
        | [] => none
        | q :: rem2 => some ([c, '*', q], rem2)

/-- The `if (replace) read_and_replace_json_string else read_json_string`
dispatch that `read_json_value` performs at each quoted string. -/
def read_element (replace : Bool) (src : List Char) : Option (List Char × List Char) :=
  if replace then read_and_replace_json_string src else read_json_string src

/-- Model of the array loop of `read_json_value`, fuel-indexed: while the
current character is not a close bracket, a quoted string is read (masked or
verbatim per `replace`) and any other character is copied one by one; the
close bracket is then copied. The fuel only bounds the number of loop
iterations; `json_read_value` supplies enough of it for any input. Running
out of source (or fuel) models the C++ loop scanning past the terminator. -/
def read_array_body (fuel : Nat) (src : List Char) (replace : Bool) :
    Except JsonError (List Char × List Char) :=
  match fuel with
  | 0 => .error .outOfBounds
  | fuel + 1 =>
    match src with
    | [] => .error .outOfBounds
    | c :: rest =>
      if c = ']' then .ok ([c], rest)
      else if c = '"' then
        match read_element replace (c :: rest) with
        | none => .error .outOfBounds
        | some (out, rem) =>
          match read_array_body fuel rem replace with
          | .error e => .error e
          | .ok (out2, rem2) => .ok (out ++ out2, rem2)
      else
        match read_array_body fuel rest replace with
        | .error e => .error e
        | .ok (out2, rem2) => .ok (c :: out2, rem2)

/-- Model of `read_json_value`: dispatches on the first character — a quoted
string is read masked or verbatim per `replace`; an open bracket starts the
array loop (the bracket itself is copied first); anything else (including the
terminator) raises `unsupportedValue`, modelling
`throw std::invalid_argument (JSON_READ_ERROR_MSG)`. -/
def read_json_value (src : List Char) (replace : Bool) :
    Except JsonError (List Char × List Char) :=
  match src with
  | [] => .error .unsupportedValue
  | c :: rest =>
    if c = '"' then
      match read_element replace (c :: rest) with
      | none => .error .outOfBounds
      | some (out, rem) => .ok (out, rem)
    else if c = '[' then
      match read_array_body (rest.length + 1) rest replace with
      | .error e => .error e
      | .ok (out, rem) => .ok (c :: out, rem)
    else .error .unsupportedValue

/-- Model of the replace decision of `json_replace_no_try_catch`: the key span
just written (`dest - temp` characters) is at least `strlen (ESCAPED_TARGET_SUFFIX)`
= 3 long, and its last 3 characters compare equal (`strncmp`) to
`ESCAPED_TARGET_SUFFIX`, i.e. `_X` followed by a closing quote. -/
def is_target_key (key : List Char) : Bool :=
  decide (3 ≤ key.length) && (key.drop (key.length - 3) == ['_', 'X', '"'])

/-- Model of the driver loop of `json_replace_no_try_catch`, fuel-indexed:
while the source is not exhausted, read filler, a key (verbatim), compute the
replace decision from the key span, read filler, read the value with that
decision, and read trailing filler. The fuel only bounds the number of pairs
processed; the wrapper supplies enough of it for any input. -/
def json_replace_loop (fuel : Nat) (src : List Char) : Except JsonError (List Char) :=
  match fuel with
  | 0 => .error .outOfBounds
  | fuel + 1 =>
    match src with
    | [] => .ok []
    | _ :: _ =>
      let f1 := read_json_filler src
      match read_json_string f1.2 with
      | none => .error .outOfBounds
      | some (key, s2) =>
        let replace := is_target_key key
        let f2 := read_json_filler s2
        match read_json_value f2.2 replace with
        | .error e => .error e
        | .ok (val, s4) =>
          let f3 := read_json_filler s4
          match json_replace_loop fuel f3.2 with
          | .error e => .error e
          | .ok out => .ok (f1.1 ++ (key ++ (f2.1 ++ (val ++ (f3.1 ++ out)))))

/-- Model of `json_replace_no_try_catch`: runs the driver loop with enough
fuel for the whole input (each loop iteration consumes at least two source
characters, so `src.length + 1` iterations always suffice). -/
def json_replace_no_try_catch (src : List Char) : Except JsonError (List Char) :=
  json_replace_loop (src.length + 1) src

/-- Model of the public `json_replace` entry point: the try/catch wrapper
rethrows the caught `std::invalid_argument` with the same fixed message, so
observably it forwards the result of `json_replace_no_try_catch` unchanged,
and on error no output string reaches the caller. -/
def json_replace (src : List Char) : Except JsonError (List Char) :=
  match json_replace_no_try_catch src with
  | .ok out => .ok out
  | .error .unsupportedValue => .error .unsupportedValue
  | .error e => .error e

/-- Characters on which `read_json_filler` stops: the terminator (end of
list), a double quote, or an open bracket. -/
def fillerStop : List Char → Bool
  | [] => true
  | c :: _ => c == '"' || c == '['

/-- A filler span for the driver: no double quote and no open bracket, so
`read_json_filler` copies all of it. -/
def isFiller (l : List Char) : Bool := l.all fun c => c != '"' && c != '['

/-- A filler span inside an array: no double quote and no close bracket, so
the array loop copies each of its characters verbatim. -/
def isArrFiller (l : List Char) : Bool := l.all fun c => c != '"' && c != ']'

/-- Predicate `scanStops esc body`: the escape-tracking loop, started with
flag `esc` at the first character of `body` followed by a closing quote,
consumes exactly `body` and stops at that quote. This is the well-formedness
condition on string bodies of the accepted grammar. -/
def scanStops : Bool → List Char → Bool
  | esc, [] => !esc
  | esc, c :: b => (c != '"' || esc) && scanStops (c == '\\') b

/-- A value of the accepted grammar: a quoted string body, or a bracketed
array given by the filler before the first element and, for each element,
its quoted body and the filler after it (commas, whitespace) up to the next
element or the close bracket. -/
inductive JValue where
  | str (body : List Char)
  | arr (pre : List Char) (elems : List (List Char × List Char))

/-- Text of one array element: its quoted body followed by its trailing
filler. -/
def renderElem (e : List Char × List Char) : List Char := '"' :: e.1 ++ '"' :: e.2

/-- Text of a value. -/
def renderValue : JValue → List Char
  | .str body => '"' :: (body ++ ['"'])
  | .arr pre elems => '[' :: (pre ++ ((elems.map renderElem).flatten ++ [']']))

/-- One key/value pair of the accepted grammar: the key body, the filler
between key and value (colon, whitespace), the value, and the trailing
filler (comma, brace, whitespace) before the next pair or the end of
input. -/
structure JPair where
  keyBody : List Char
  mid : List Char
  val : JValue
  post : List Char

/-- Text of one pair. -/
def renderPair (p : JPair) : List Char :=
  '"' :: (p.keyBody ++ '"' :: (p.mid ++ (renderValue p.val ++ p.post)))

/-- Text of a whole grammar-conforming input: leading filler followed by the
pairs. -/
def renderInput (pre0 : List Char) (ps : List JPair) : List Char :=
  pre0 ++ (ps.map renderPair).flatten

/-- Well-formedness of a value: its string bodies stop the scan at their
closing quotes, and array-internal filler contains no quote and no close
bracket. -/
def validValue : JValue → Bool
  | .str body => scanStops false body
  | .arr pre elems =>
    isArrFiller pre && elems.all fun e => scanStops false e.1 && isArrFiller e.2

/-- Well-formedness of a pair. -/
def validPair (p : JPair) : Bool :=
  scanStops false p.keyBody && (isFiller p.mid && (validValue p.val && isFiller p.post))

/-- A grammar-conforming input: well-formed leading filler and pairs; an
input with no pairs at all is the empty input (the source scans past the
terminator on a nonempty input made of filler only, so such inputs are
outside the accepted grammar). -/
def conforms (pre0 : List Char) (ps : List JPair) : Bool :=
  isFiller pre0 && (ps.all validPair && (!ps.isEmpty || pre0.isEmpty))

/-- Masking of one string body: a non-empty body becomes the single
placeholder `*`; an empty body stays empty. -/
def maskBody (b : List Char) : List Char := if b.isEmpty then b else ['*']

/-- Masking of a value: the scalar body, or every element body of an array,
is masked; array length and all filler are preserved. -/
def maskValue : JValue → JValue
  | .str b => .str (maskBody b)
  | .arr pre elems => .arr pre (elems.map fun e => (maskBody e.1, e.2))

/-- Conditional masking of an array element, as selected by the replace
flag. -/
def maskElem (b : Bool) (e : List Char × List Char) : List Char × List Char :=
  if b then (maskBody e.1, e.2) else e

/-- The key span of a pair as the driver writes it: the key body with its
surrounding quotes. -/
def keySpan (p : JPair) : List Char := '"' :: (p.keyBody ++ ['"'])

/-- Masking of one pair: the value is masked exactly when the key span ends
with the designated suffix `_X` before its closing quote. -/
def maskPair (p : JPair) : JPair :=
  if is_target_key (keySpan p) then { p with val := maskValue p.val } else p

/-- Modelled from the spec: a target key is one whose span ends with the
designated suffix `_X` immediately before its closing quote, i.e. the span
has `_X` followed by `"` as a suffix. Used only to compare the driver's
decision against the spec's wording. -/
def spec_is_target (key : List Char) : Prop := ['_', 'X', '"'] <:+ key

/-- The filler scanner splits its input: output followed by remainder is the
source, so it copies verbatim and never backtracks. -/
theorem read_json_filler_split (src : List Char) :
    (read_json_filler src).1 ++ (read_json_filler src).2 = src := by
  induction src with
  | nil => rfl
  | cons c rest ih =>
    by_cases h : c = '"' ∨ c = '['
    · simp [read_json_filler, h]
    · simp [read_json_filler, h, ih]

/-- The filler scanner consumes exactly a filler span when the text after it
starts with a stopping character. -/
theorem read_json_filler_append (f rest : List Char) (hf : isFiller f = true)
    (hr : fillerStop rest = true) : read_json_filler (f ++ rest) = (f, rest) := by
  induction f with
  | nil =>
    cases rest with
    | nil => rfl
    | cons c r =>
      simp [fillerStop] at hr
      rcases hr with h | h <;> subst h <;> simp [read_json_filler]
  | cons c f ih =>
    simp [isFiller] at hf
    obtain ⟨⟨h1, h2⟩, hf2⟩ := hf
    have ih2 := ih (by simp [isFiller]; exact hf2)
    simp [read_json_filler, h1, h2, ih2]

/-- The shared body-scanning loop splits its input into the consumed span and
the remainder. -/
theorem scan_string_body_split (src : List Char) :
    ∀ (esc : Bool) (body rem : List Char),
    scan_string_body src esc = some (body, rem) → src = body ++ rem := by
  induction src with
  | nil => intro esc body rem h; simp [scan_string_body] at h
  | cons c rest ih =>
    intro esc body rem h
    by_cases hc : c = '"' ∧ esc = false
    · simp [scan_string_body, hc] at h
      obtain ⟨h1, h2⟩ := h
      subst h1; subst h2; simp [hc.1]
    · simp [scan_string_body, hc] at h
      cases hs : scan_string_body rest (c == '\\') with
      | none => rw [hs] at h; simp at h
      | some pr =>
        rw [hs] at h
        simp at h
        obtain ⟨h1, h2⟩ := h
        have := ih (c == '\\') pr.1 pr.2 (by rw [hs])
        subst h1; subst h2
        simp [this]

/-- On a well-formed body followed by a closing quote, the body-scanning loop
consumes exactly the body and stops at the quote. -/
theorem scan_string_body_append (body : List Char) :
    ∀ (esc : Bool) (rest : List Char), scanStops esc body = true →
    scan_string_body (body ++ '"' :: rest) esc = some (body, '"' :: rest) := by
  induction body with
  | nil =>
    intro esc rest h
    simp [scanStops] at h
    simp [scan_string_body, h]
  | cons c b ih =>
    intro esc rest h
    simp [scanStops] at h
    obtain ⟨h1, h2⟩ := h
    have hguard : ¬(c = '"' ∧ esc = false) := by
      rcases h1 with h1 | h1
      · intro hcon; exact h1 hcon.1
      · intro hcon; rw [hcon.2] at h1; exact Bool.false_ne_true h1
    simp [scan_string_body, hguard, ih (c == '\\') rest h2]

/-- The verbatim string reader copies an opening character, a well-formed
body, and the closing quote exactly, leaving the cursor after the quote. -/
theorem read_json_string_append (c : Char) (body rest : List Char)
    (h : scanStops false body = true) :
    read_json_string (c :: (body ++ '"' :: rest)) = some (c :: (body ++ ['"']), rest) := by
  simp [read_json_string, scan_string_body_append body false rest h]

/-- The masking string reader turns a well-formed body into `maskBody` of it
(placeholder for non-empty, nothing for empty), keeping both quotes and
leaving the cursor after the closing quote. -/
theorem read_and_replace_json_string_append (c : Char) (body rest : List Char)
    (h : scanStops false body = true) :
    read_and_replace_json_string (c :: (body ++ '"' :: rest)) =
      some (c :: (maskBody body ++ ['"']), rest) := by
  cases body with
  | nil => simp [read_and_replace_json_string, maskBody]
  | cons b bs =>
    have hb : ¬(b = '"') := by
      have h2 := h
      simp [scanStops] at h2
      exact h2.1
    have hscan := scan_string_body_append (b :: bs) false rest h
    simp only [List.cons_append] at hscan
    simp [read_and_replace_json_string, hb, maskBody, hscan]

/-- The per-string dispatch of the value reader: verbatim or masking per the
replace flag, summarized through `maskBody`. -/
theorem read_element_append (flag : Bool) (c : Char) (body rest : List Char)
    (h : scanStops false body = true) :
    read_element flag (c :: (body ++ '"' :: rest)) =
      some (c :: ((if flag then maskBody body else body) ++ ['"']), rest) := by
  cases flag with
  | false => simp [read_element, read_json_string_append c body rest h]
  | true => simp [read_element, read_and_replace_json_string_append c body rest h]

/-- Length of a rendered array element. -/
theorem renderElem_length (e : List Char × List Char) :
    (renderElem e).length = e.1.length + e.2.length + 2 := by
  simp [renderElem]
  omega

/-- Conditional element masking, written componentwise. -/
theorem maskElem_eq (flag : Bool) (e : List Char × List Char) :
    maskElem flag e = ((if flag then maskBody e.1 else e.1), e.2) := by
  cases flag <;> simp [maskElem]

/-- With the replace flag off, element rendering is untouched. -/
theorem comp_maskElem_false : renderElem ∘ maskElem false = renderElem := by
  funext e; simp [maskElem]

/-- With the replace flag on, element rendering masks each body. -/
theorem comp_maskElem_true :
    renderElem ∘ maskElem true = renderElem ∘ fun e => (maskBody e.1, e.2) := by
  funext e; simp [maskElem]

/-- The array loop of the value reader, on well-formed array contents
(internal filler, elements, close bracket), copies filler and the close
bracket verbatim and reads every element per the replace flag, preserving the
element count. Any fuel beyond the length of the contents suffices. -/
theorem read_array_body_append :
    ∀ (fuel : Nat) (pre : List Char) (elems : List (List Char × List Char))
      (rest : List Char) (flag : Bool),
    isArrFiller pre = true →
    (elems.all fun e => scanStops false e.1 && isArrFiller e.2) = true →
    pre.length + ((elems.map renderElem).flatten).length < fuel →
    read_array_body fuel (pre ++ ((elems.map renderElem).flatten ++ ']' :: rest)) flag =
      .ok (pre ++ (((elems.map (maskElem flag)).map renderElem).flatten ++ [']']), rest) := by
  intro fuel
  induction fuel with
  | zero => intro pre elems rest flag hpre helems hlen; omega
  | succ n ih =>
    intro pre elems rest flag hpre helems hlen
    cases pre with
    | cons c pre2 =>
      simp [isArrFiller] at hpre
      obtain ⟨⟨hc1, hc2⟩, hpre2⟩ := hpre
      have ihx := ih pre2 elems rest flag (by simp [isArrFiller]; exact hpre2) helems
        (by simp at hlen ⊢; omega)
      simp [read_array_body, hc1, hc2, ihx]
    | nil =>
      cases elems with
      | nil => simp [read_array_body]
      | cons e elems2 =>
        simp only [List.all_cons, Bool.and_eq_true] at helems
        obtain ⟨⟨he1, he2⟩, helems2⟩ := helems
        have hel := read_element_append flag '"' e.1
          (e.2 ++ (((elems2.map renderElem).flatten) ++ ']' :: rest)) he1
        have hlen2 : e.1.length + e.2.length + 2 +
            ((elems2.map renderElem).flatten).length < n + 1 := by
          rw [List.map_cons, List.flatten_cons, List.length_append, renderElem_length] at hlen
          simp only [List.length_nil] at hlen
          omega
        have ihx := ih e.2 elems2 rest flag he2 helems2 (by omega)
        simp only [List.map_cons, List.flatten_cons, List.nil_append, List.append_assoc,
          renderElem, List.cons_append]
        simp [read_array_body, hel, ihx, maskElem_eq, List.map_map, List.append_assoc]

/-- Unfolding equation for the value reader at an open bracket: the bracket
is copied and the array loop runs with fuel covering the whole remaining
input. -/
theorem read_json_value_bracket (rest : List Char) (flag : Bool) :
    read_json_value ('[' :: rest) flag =
      match read_array_body (rest.length + 1) rest flag with
      | .error e => .error e
      | .ok (out, rem) => .ok ('[' :: out, rem) := rfl

/-- The value reader on a rendered well-formed value: a scalar string is read
verbatim or masked per the flag; an array has its brackets and internal filler
copied and each element read per the flag. -/
theorem read_json_value_append (v : JValue) (rest : List Char) (flag : Bool)
    (hv : validValue v = true) :
    read_json_value (renderValue v ++ rest) flag =
      .ok (renderValue (if flag then maskValue v else v), rest) := by
  cases v with
  | str body =>
    have hel := read_element_append flag '"' body rest hv
    cases flag <;>
      simp [renderValue, read_json_value, maskValue, hel]
  | arr pre elems =>
    simp only [validValue, Bool.and_eq_true] at hv
    obtain ⟨hpre, helems⟩ := hv
    have hY : (pre ++ (((elems.map renderElem).flatten) ++ [']'])) ++ rest
        = pre ++ (((elems.map renderElem).flatten) ++ ']' :: rest) := by
      simp [List.append_assoc]
    have harr := read_array_body_append
      ((pre ++ (((elems.map renderElem).flatten) ++ ']' :: rest)).length + 1)
      pre elems rest flag hpre helems (by simp; omega)
    simp only [renderValue, List.cons_append]
    rw [read_json_value_bracket, hY, harr]
    cases flag <;>
      simp [renderValue, maskValue, List.map_map, comp_maskElem_false, comp_maskElem_true]

/-- Unfolding equation for the driver loop on a nonempty source. -/
theorem json_replace_loop_ne_nil (n : Nat) (src : List Char) (h : src ≠ []) :
    json_replace_loop (n + 1) src =
      (let f1 := read_json_filler src
       match read_json_string f1.2 with
       | none => .error .outOfBounds
       | some (key, s2) =>
         let replace := is_target_key key
         let f2 := read_json_filler s2
         match read_json_value f2.2 replace with
         | .error e => .error e
         | .ok (val, s4) =>
           let f3 := read_json_filler s4
           match json_replace_loop n f3.2 with
           | .error e => .error e
           | .ok out => .ok (f1.1 ++ (key ++ (f2.1 ++ (val ++ (f3.1 ++ out)))))) := by
  cases src with
  | nil => exact absurd rfl h
  | cons c rest => rfl

/-- Rendered values start with a character on which the filler scanner
stops. -/
theorem fillerStop_renderValue (v : JValue) (X : List Char) :
    fillerStop (renderValue v ++ X) = true := by
  cases v <;> simp [renderValue, fillerStop]

/-- Rendered pair sequences start with a character on which the filler
scanner stops (a key quote), or are empty. -/
theorem fillerStop_flatten_renderPair (tl : List JPair) :
    fillerStop ((tl.map renderPair).flatten) = true := by
  cases tl <;> simp [renderPair, fillerStop]

/-- Rendering after `maskPair`, written through the replace decision on the
key span. -/
theorem renderPair_maskPair (p : JPair) :
    renderPair (maskPair p) =
      '"' :: (p.keyBody ++ '"' :: (p.mid ++ (renderValue
        (if is_target_key (keySpan p) then maskValue p.val else p.val) ++ p.post))) := by
  cases hit : is_target_key (keySpan p) <;> simp [maskPair, renderPair, hit]

/-- The driver loop on a rendered conforming input: every key is copied
verbatim, every value is masked exactly when its key span ends in the
designated suffix before the closing quote, and all filler is copied
verbatim. Any fuel beyond the number of pairs suffices. -/
theorem json_replace_loop_append :
    ∀ (ps : List JPair) (pre0 : List Char) (fuel : Nat),
    conforms pre0 ps = true → ps.length < fuel →
    json_replace_loop fuel (renderInput pre0 ps) =
      .ok (renderInput pre0 (ps.map maskPair)) := by
  intro ps
  induction ps with
  | nil =>
    intro pre0 fuel hconf hfuel
    have hpre : pre0 = [] := by
      simp [conforms] at hconf
      exact hconf.2
    cases fuel with
    | zero => omega
    | succ n => subst hpre; simp [renderInput, json_replace_loop]
  | cons p tl ih =>
    intro pre0 fuel hconf hfuel
    cases fuel with
    | zero => omega
    | succ n =>
      simp only [conforms, List.all_cons, validPair, Bool.and_eq_true, List.isEmpty_cons,
        Bool.not_false, Bool.true_or] at hconf
      obtain ⟨hpre0, ⟨⟨hkey, hmid, hval, hpost⟩, htl⟩, -⟩ := hconf
      have hshape : renderInput pre0 (p :: tl) =
          pre0 ++ ('"' :: (p.keyBody ++ '"' :: (p.mid ++ (renderValue p.val ++
            (p.post ++ ((tl.map renderPair).flatten)))))) := by
        simp [renderInput, renderPair, List.append_assoc]
      have hne : renderInput pre0 (p :: tl) ≠ [] := by
        rw [hshape]; simp
      have hf1 := read_json_filler_append pre0
        ('"' :: (p.keyBody ++ '"' :: (p.mid ++ (renderValue p.val ++
          (p.post ++ ((tl.map renderPair).flatten)))))) hpre0 (by simp [fillerStop])
      have hks := read_json_string_append '"' p.keyBody
        (p.mid ++ (renderValue p.val ++ (p.post ++ ((tl.map renderPair).flatten)))) hkey
      have hf2 := read_json_filler_append p.mid
        (renderValue p.val ++ (p.post ++ ((tl.map renderPair).flatten))) hmid
        (fillerStop_renderValue p.val _)
      have hrv := read_json_value_append p.val
        (p.post ++ ((tl.map renderPair).flatten))
        (is_target_key ('"' :: (p.keyBody ++ ['"']))) hval
      have hf3 := read_json_filler_append p.post ((tl.map renderPair).flatten) hpost
        (fillerStop_flatten_renderPair tl)
      have ihx := ih [] n
        (by
          simp only [conforms, Bool.and_eq_true]
          exact ⟨by simp [isFiller], htl, by simp⟩)
        (by simp at hfuel ⊢; omega)
      rw [hshape, json_replace_loop_ne_nil n _ (hshape ▸ hne)]
      simp only [hf1, hks, hf2, hrv, hf3]
      simp only [renderInput, List.nil_append] at ihx
      rw [ihx]
      simp only [renderInput, List.map_cons, List.flatten_cons, renderPair_maskPair, keySpan]
      simp [List.append_assoc]

/-- The body scan always stops at a double quote. -/
theorem scan_string_body_stops_at_quote (src : List Char) :
    ∀ (esc : Bool) (body rem : List Char),
    scan_string_body src esc = some (body, rem) → ∃ r, rem = '"' :: r := by
  induction src with
  | nil => intro esc body rem h; simp [scan_string_body] at h
  | cons c rest ih =>
    intro esc body rem h
    by_cases hc : c = '"' ∧ esc = false
    · simp [scan_string_body, hc] at h
      exact ⟨rest, h.2.symm⟩
    · simp [scan_string_body, hc] at h
      cases hs : scan_string_body rest (c == '\\') with
      | none => rw [hs] at h; simp at h
      | some pr =>
        rw [hs] at h; simp at h
        obtain ⟨r, hr⟩ := ih _ pr.1 pr.2 (by rw [hs])
        exact ⟨r, by rw [← h.2, hr]⟩

/-- The verbatim string reader splits its input: the copied span followed by
the remainder is the source, so it is an exact passthrough that strictly
advances the cursor. -/
theorem read_json_string_split (src out rem : List Char)
    (h : read_json_string src = some (out, rem)) : src = out ++ rem ∧ out ≠ [] := by
  cases src with
  | nil => simp [read_json_string] at h
  | cons c rest =>
    simp only [read_json_string] at h
    cases hs : scan_string_body rest false with
    | none => rw [hs] at h; simp at h
    | some pr =>
      rw [hs] at h
      obtain ⟨body, rem1⟩ := pr
      cases rem1 with
      | nil => simp at h
      | cons q rem2 =>
        simp only [Option.some.injEq, Prod.mk.injEq] at h
        obtain ⟨h1, h2⟩ := h
        have hsplit := scan_string_body_split rest false body (q :: rem2) hs
        subst h1 h2
        constructor
        · simp [hsplit, List.append_assoc]
        · simp

/-- The masking string reader never emits more than it consumes: the output
(quote, placeholder, quote — or the two quotes of an empty string) is never
longer than the consumed span. -/
theorem read_and_replace_json_string_length (src out rem : List Char)
    (h : read_and_replace_json_string src = some (out, rem)) :
    out.length + rem.length ≤ src.length := by
  cases src with
  | nil => simp [read_and_replace_json_string] at h
  | cons c rest =>
    simp only [read_and_replace_json_string] at h
    by_cases hh : rest.head? = some '"'
    · rw [if_pos hh] at h
      simp only [Option.some.injEq, Prod.mk.injEq] at h
      obtain ⟨h1, h2⟩ := h
      cases rest with
      | nil => simp at hh
      | cons r rest2 => subst h1 h2; simp; omega
    · rw [if_neg hh] at h
      cases hs : scan_string_body rest false with
      | none => rw [hs] at h; simp at h
      | some pr =>
        rw [hs] at h
        obtain ⟨body, rem1⟩ := pr
        cases rem1 with
        | nil => simp at h
        | cons q rem2 =>
          simp only [Option.some.injEq, Prod.mk.injEq] at h
          obtain ⟨h1, h2⟩ := h
          have hsplit := scan_string_body_split rest false body (q :: rem2) hs
          have hbody : body ≠ [] := by
            intro hb
            subst hb
            obtain ⟨r, hr⟩ := scan_string_body_stops_at_quote rest false [] (q :: rem2) hs
            rw [hsplit, hr] at hh
            simp at hh
          subst h1 h2
          have : 1 ≤ body.length := List.length_pos.mpr hbody
          simp [hsplit]
          omega

/-- The per-string dispatch never emits more than it consumes. -/
theorem read_element_length (flag : Bool) (src out rem : List Char)
    (h : read_element flag src = some (out, rem)) :
    out.length + rem.length ≤ src.length := by
  cases flag with
  | false =>
    simp only [read_element, Bool.false_eq_true, if_false] at h
    have := (read_json_string_split src out rem h).1
    simp [this]
  | true =>
    simp only [read_element, if_true] at h
    exact read_and_replace_json_string_length src out rem h

/-- The array loop never emits more than it consumes, for any fuel. -/
theorem read_array_body_length :
    ∀ (fuel : Nat) (src : List Char) (flag : Bool) (out rem : List Char),
    read_array_body fuel src flag = .ok (out, rem) →
    out.length + rem.length ≤ src.length := by
  intro fuel
  induction fuel with
  | zero => intro src flag out rem h; simp [read_array_body] at h
  | succ n ih =>
    intro src flag out rem h
    cases src with
    | nil => simp [read_array_body] at h
    | cons c rest =>
      simp only [read_array_body] at h
      by_cases hc : c = ']'
      · rw [if_pos hc] at h
        simp only [Except.ok.injEq, Prod.mk.injEq] at h
        obtain ⟨h1, h2⟩ := h
        subst h1 h2
        simp
        omega
      · rw [if_neg hc] at h
        by_cases hq : c = '"'
        · rw [if_pos hq] at h
          cases he : read_element flag (c :: rest) with
          | none => rw [he] at h; simp at h
          | some pr =>
            rw [he] at h
            obtain ⟨o1, r1⟩ := pr
            simp only [] at h
            cases ha : read_array_body n r1 flag with
            | error e => rw [ha] at h; simp at h
            | ok pr2 =>
              rw [ha] at h
              obtain ⟨o2, r2⟩ := pr2
              simp only [Except.ok.injEq, Prod.mk.injEq] at h
              obtain ⟨h1, h2⟩ := h
              subst h1 h2
              have e1 := read_element_length flag (c :: rest) o1 r1 he
              have e2 := ih r1 flag o2 r2 ha
              simp at e1 ⊢
              omega
        · rw [if_neg hq] at h
          cases ha : read_array_body n rest flag with
          | error e => rw [ha] at h; simp at h
          | ok pr2 =>
            rw [ha] at h
            obtain ⟨o2, r2⟩ := pr2
            simp only [Except.ok.injEq, Prod.mk.injEq] at h
            obtain ⟨h1, h2⟩ := h
            subst h1 h2
            have e2 := ih rest flag o2 r2 ha
            simp
            omega

/-- The value reader never emits more than it consumes. -/
theorem read_json_value_length (src : List Char) (flag : Bool) (out rem : List Char)
    (h : read_json_value src flag = .ok (out, rem)) :
    out.length + rem.length ≤ src.length := by
  cases src with
  | nil => simp [read_json_value] at h
  | cons c rest =>
    simp only [read_json_value] at h
    by_cases hq : c = '"'
    · rw [if_pos hq] at h
      cases he : read_element flag (c :: rest) with
      | none => rw [he] at h; simp at h
      | some pr =>
        rw [he] at h
        simp only [Except.ok.injEq, Prod.mk.injEq] at h
        obtain ⟨h1, h2⟩ := h
        subst h1 h2
        exact read_element_length flag (c :: rest) pr.1 pr.2 (by rw [he])
    · rw [if_neg hq] at h
      by_cases hb : c = '['
      · rw [if_pos hb] at h
        cases ha : read_array_body (rest.length + 1) rest flag with
        | error e => rw [ha] at h; simp at h
        | ok pr2 =>
          rw [ha] at h
          obtain ⟨o2, r2⟩ := pr2
          simp only [Except.ok.injEq, Prod.mk.injEq] at h
          obtain ⟨h1, h2⟩ := h
          subst h1 h2
          have e2 := read_array_body_length (rest.length + 1) rest flag o2 r2 ha
          simp
          omega
      · rw [if_neg hb] at h
        simp at h

/-- The driver loop never emits more than it consumes, for any fuel. -/
theorem json_replace_loop_length :
    ∀ (fuel : Nat) (src out : List Char),
    json_replace_loop fuel src = .ok out → out.length ≤ src.length := by
  intro fuel
  induction fuel with
  | zero => intro src out h; simp [json_replace_loop] at h
  | succ n ih =>
    intro src out h
    cases src with
    | nil =>
      simp only [json_replace_loop, Except.ok.injEq] at h
      subst h; simp
    | cons c rest =>
      rw [json_replace_loop_ne_nil n _ (List.cons_ne_nil c rest)] at h
      simp only at h
      cases hks : read_json_string (read_json_filler (c :: rest)).2 with
      | none => rw [hks] at h; simp at h
      | some pr1 =>
        rw [hks] at h
        obtain ⟨key, s2⟩ := pr1
        simp only at h
        cases hv : read_json_value (read_json_filler s2).2 (is_target_key key) with
        | error e => rw [hv] at h; simp at h
        | ok pr2 =>
          rw [hv] at h
          obtain ⟨val, s4⟩ := pr2
          simp only at h
          cases hl : json_replace_loop n (read_json_filler s4).2 with
          | error e => rw [hl] at h; simp at h
          | ok out2 =>
            rw [hl] at h
            simp only [Except.ok.injEq] at h
            subst h
            have e1 := read_json_filler_split (c :: rest)
            have e2 := (read_json_string_split _ _ _ hks).1
            have e3 := read_json_filler_split s2
            have e4 := read_json_value_length _ _ _ _ hv
            have e5 := read_json_filler_split s4
            have e6 := ih _ _ hl
            have l1 := congrArg List.length e1
            have l2 := congrArg List.length e2
            have l3 := congrArg List.length e3
            have l5 := congrArg List.length e5
            simp only [List.length_append, List.length_cons] at l1 l2 l3 l5 ⊢
            omega

/-- Every rendered pair is at least one character long, so the pair count is
bounded by the rendered length (used to discharge the fuel bound). -/
theorem le_flatten_renderPair (ps : List JPair) :
    ps.length ≤ ((ps.map renderPair).flatten).length := by
  induction ps with
  | nil => simp
  | cons p tl ih =>
    simp only [List.map_cons, List.flatten_cons, List.length_append, List.length_cons]
    have h1 : 1 ≤ (renderPair p).length := by simp [renderPair]
    omega

/-- Pair count is bounded by the length of the rendered input. -/
theorem le_renderInput_length (pre0 : List Char) (ps : List JPair) :
    ps.length ≤ (renderInput pre0 ps).length := by
  have h := le_flatten_renderPair ps
  rw [renderInput, List.length_append]
  omega

/-- Once the array loop has started, no path raises `unsupportedValue`: every
non-quote byte before the close bracket is copied verbatim and quoted strings
are read by the string readers, whose only failure mode is running out of
input. -/
theorem read_array_body_ne_unsupported :
    ∀ (fuel : Nat) (src : List Char) (flag : Bool),
    read_array_body fuel src flag ≠ .error .unsupportedValue := by
  intro fuel
  induction fuel with
  | zero => intro src flag h; simp [read_array_body] at h
  | succ n ih =>
    intro src flag h
    cases src with
    | nil => simp [read_array_body] at h
    | cons c rest =>
      simp only [read_array_body] at h
      by_cases hc : c = ']'
      · rw [if_pos hc] at h; simp at h
      · rw [if_neg hc] at h
        by_cases hq : c = '"'
        · rw [if_pos hq] at h
          cases he : read_element flag (c :: rest) with
          | none => rw [he] at h; simp at h
          | some pr =>
            rw [he] at h
            simp only [] at h
            cases ha : read_array_body n pr.2 flag with
            | error e =>
              rw [ha] at h
              simp only [Except.error.injEq] at h
              cases e with
              | unsupportedValue => exact ih pr.2 flag ha
              | outOfBounds => simp at h
            | ok pr2 => rw [ha] at h; simp at h
        · rw [if_neg hq] at h
          cases ha : read_array_body n rest flag with
          | error e =>
            rw [ha] at h
            simp only [Except.error.injEq] at h
            cases e with
            | unsupportedValue => exact ih rest flag ha
            | outOfBounds => simp at h
          | ok pr2 => rw [ha] at h; simp at h

/-- C1: on every input of the accepted grammar (leading filler, then
quoted-key / filler / value pairs, each value a quoted string or a bracketed
array of quoted strings, each with trailing filler), `json_replace` returns
the same text with exactly the values of target keys (key span ending in
`_X` before the closing quote) masked: a non-empty scalar body becomes the
single placeholder `*` between its quotes, each non-empty element body of an
array becomes `*` with the element list mapped one-to-one (count preserved),
and all other characters — filler, keys, non-target values, quotes,
brackets, escapes — are reproduced verbatim by construction of
`renderInput`. -/
theorem json_replace_masks_conforming_input (pre0 : List Char) (ps : List JPair)
    (h : conforms pre0 ps = true) :
    json_replace (renderInput pre0 ps) = .ok (renderInput pre0 (ps.map maskPair)) := by
  have hl := json_replace_loop_append ps pre0 ((renderInput pre0 ps).length + 1) h
    (Nat.lt_succ_of_le (le_renderInput_length pre0 ps))
  simp [json_replace, json_replace_no_try_catch, hl]

/-- Witness for C1: the literal scenario `"k3_X": ["a","b","c"]` becomes
`"k3_X": ["*","*","*"]`. -/
theorem json_replace_masks_conforming_input_witness :
    conforms [] [JPair.mk ['k', '3', '_', 'X'] [':', ' ']
      (.arr [] [(['a'], [',']), (['b'], [',']), (['c'], [])]) []] = true ∧
    json_replace (renderInput [] [JPair.mk ['k', '3', '_', 'X'] [':', ' ']
      (.arr [] [(['a'], [',']), (['b'], [',']), (['c'], [])]) []]) =
      .ok (renderInput [] ([JPair.mk ['k', '3', '_', 'X'] [':', ' ']
        (.arr [] [(['a'], [',']), (['b'], [',']), (['c'], [])]) []].map maskPair)) :=
  ⟨by decide, json_replace_masks_conforming_input [] _ (by decide)⟩

/-- C2: when a value's leading character is neither a double quote nor an
open bracket (which also covers the exhausted-input case, where the C++ code
sees the terminator), the value reader raises the single error kind
`unsupportedValue`; in particular the whole transform on `"key_X": 42`
aborts with that error, and — the result being `.error` — no partial output
string is returned to the caller. -/
theorem read_json_value_rejects_nonstring :
    (∀ (c : Char) (rest : List Char) (flag : Bool), ¬c = '"' → ¬c = '[' →
      read_json_value (c :: rest) flag = .error .unsupportedValue) ∧
    json_replace ['"', 'k', 'e', 'y', '_', 'X', '"', ':', ' ', '4', '2'] =
      .error .unsupportedValue := by
  constructor
  · intro c rest flag h1 h2
    simp [read_json_value, h1, h2]
  · rfl

/-- Witness for C2: a value starting with the digit `4` is rejected. -/
theorem read_json_value_rejects_nonstring_witness :
    read_json_value ['4', '2'] true = .error .unsupportedValue :=
  read_json_value_rejects_nonstring.1 '4' ['2'] true (by decide) (by decide)

/-- C3: an empty string value `""` is never masked: the masking reader copies
the two quotes untouched, both as a scalar value and as an array element, and
the full transform on the target pair `"k2_X": [""]` is the identity. -/
theorem read_and_replace_preserves_empty_string :
    (∀ rest : List Char,
      read_and_replace_json_string ('"' :: '"' :: rest) = some (['"', '"'], rest)) ∧
    (∀ rest : List Char,
      read_json_value ('"' :: '"' :: rest) true = .ok (['"', '"'], rest)) ∧
    (∀ rest : List Char,
      read_json_value ('[' :: '"' :: '"' :: ']' :: rest) true =
        .ok (['[', '"', '"', ']'], rest)) ∧
    json_replace ['"', 'k', '2', '_', 'X', '"', ':', ' ', '[', '"', '"', ']'] =
      .ok ['"', 'k', '2', '_', 'X', '"', ':', ' ', '[', '"', '"', ']'] :=
  ⟨fun _ => rfl, fun _ => rfl, fun _ => rfl, rfl⟩

/-- Witness for C3: the empty-string cases evaluated at a concrete tail. -/
theorem read_and_replace_preserves_empty_string_witness :
    read_and_replace_json_string ('"' :: '"' :: [',']) = some (['"', '"'], [',']) :=
  read_and_replace_preserves_empty_string.1 [',']

/-- C4: on a conforming input none of whose key spans is a target, the
transform is the identity: the output equals the input character for
character. -/
theorem json_replace_identity_without_target_keys (pre0 : List Char) (ps : List JPair)
    (hconf : conforms pre0 ps = true)
    (hnt : ∀ p ∈ ps, is_target_key (keySpan p) = false) :
    json_replace (renderInput pre0 ps) = .ok (renderInput pre0 ps) := by
  have hmask : ps.map maskPair = ps := by
    have h1 : ∀ p ∈ ps, maskPair p = p := by
      intro p hp
      simp [maskPair, hnt p hp]
    calc ps.map maskPair = ps.map id := List.map_congr_left h1
      _ = ps := List.map_id ps
  have hl := json_replace_loop_append ps pre0 ((renderInput pre0 ps).length + 1) hconf
    (Nat.lt_succ_of_le (le_renderInput_length pre0 ps))
  rw [hmask] at hl
  simp [json_replace, json_replace_no_try_catch, hl]

/-- Witness for C4: the non-target pair `"key": "value"` is returned
unchanged. -/
theorem json_replace_identity_without_target_keys_witness :
    conforms [] [JPair.mk ['k', 'e', 'y'] [':', ' '] (.str ['v', 'a', 'l', 'u', 'e']) []] = true ∧
    (∀ p ∈ [JPair.mk ['k', 'e', 'y'] [':', ' '] (.str ['v', 'a', 'l', 'u', 'e']) []],
      is_target_key (keySpan p) = false) ∧
    json_replace (renderInput []
        [JPair.mk ['k', 'e', 'y'] [':', ' '] (.str ['v', 'a', 'l', 'u', 'e']) []]) =
      .ok (renderInput []
        [JPair.mk ['k', 'e', 'y'] [':', ' '] (.str ['v', 'a', 'l', 'u', 'e']) []]) :=
  ⟨by decide, by decide,
    json_replace_identity_without_target_keys [] _ (by decide) (by decide)⟩

/-- C5: the replace decision is exactly "key span at least 3 characters long
and its last 3 characters are `_X` followed by a closing quote", a literal
character comparison — equivalently, `_X"` is a suffix of the key span
(`spec_is_target`); and the key `"_X"`, whose whole body is the suffix, is a
target: its value `"val2"` is masked to `"*"`. -/
theorem is_target_key_decision :
    (∀ key : List Char, is_target_key key = true ↔ spec_is_target key) ∧
    json_replace ['"', '_', 'X', '"', ':', ' ', '"', 'v', 'a', 'l', '2', '"'] =
      .ok ['"', '_', 'X', '"', ':', ' ', '"', '*', '"'] := by
  constructor
  · intro key
    constructor
    · intro h
      simp only [is_target_key, Bool.and_eq_true, decide_eq_true_eq, beq_iff_eq] at h
      obtain ⟨h1, h2⟩ := h
      exact ⟨key.take (key.length - 3), by rw [← h2]; exact List.take_append_drop _ key⟩
    · rintro ⟨t, ht⟩
      have hlen : key.length = t.length + 3 := by rw [← ht]; simp
      have hdrop : key.drop t.length = ['_', 'X', '"'] := by
        rw [← ht]
        exact List.drop_left t _
      simp [is_target_key, hlen, hdrop]
  · rfl

/-- Witness for C5: the target decision evaluated on the span `"_X"`. -/
theorem is_target_key_decision_witness :
    is_target_key ['"', '_', 'X', '"'] = true ↔ spec_is_target ['"', '_', 'X', '"'] :=
  is_target_key_decision.1 ['"', '_', 'X', '"']

/-- C6: the verbatim string reader is an exact passthrough: on a well-formed
body (one the escape-tracking scan stops at the closing quote of, covering
interior escaped quotes) it copies opening character, body and closing quote
unchanged; in general whatever it returns is a split of its input; and the
full transform leaves `"k":"va\"lue"` byte-identical. -/
theorem read_json_string_exact_passthrough :
    (∀ (c : Char) (body rest : List Char), scanStops false body = true →
      read_json_string (c :: (body ++ '"' :: rest)) = some (c :: (body ++ ['"']), rest)) ∧
    (∀ (src out rem : List Char), read_json_string src = some (out, rem) →
      src = out ++ rem) ∧
    json_replace ['"', 'k', '"', ':', '"', 'v', 'a', '\\', '"', 'l', 'u', 'e', '"'] =
      .ok ['"', 'k', '"', ':', '"', 'v', 'a', '\\', '"', 'l', 'u', 'e', '"'] :=
  ⟨read_json_string_append,
   fun src out rem h => (read_json_string_split src out rem h).1,
   rfl⟩

/-- Witness for C6: the reader evaluated on the body `va\"lue`, which
contains an escaped interior quote. -/
theorem read_json_string_exact_passthrough_witness :
    scanStops false ['v', 'a', '\\', '"', 'l', 'u', 'e'] = true ∧
    read_json_string ('"' :: (['v', 'a', '\\', '"', 'l', 'u', 'e'] ++ '"' :: [])) =
      some ('"' :: (['v', 'a', '\\', '"', 'l', 'u', 'e'] ++ ['"']), []) :=
  ⟨by decide,
   read_json_string_exact_passthrough.1 '"' ['v', 'a', '\\', '"', 'l', 'u', 'e'] [] (by decide)⟩

/-- C7: whenever the transform succeeds, the output is never longer than the
input — filler and verbatim reads copy one-for-one and masking shrinks a
non-empty body to one placeholder character. -/
theorem json_replace_output_no_longer (src out : List Char)
    (h : json_replace src = .ok out) : out.length ≤ src.length := by
  have hcore : json_replace_no_try_catch src = .ok out := by
    simp only [json_replace] at h
    cases hc : json_replace_no_try_catch src with
    | ok o => rw [hc] at h; simpa using h
    | error e => cases e <;> rw [hc] at h <;> simp at h
  exact json_replace_loop_length (src.length + 1) src out hcore

/-- Witness for C7: masking `"a_X":"ab"` shrinks the text. -/
theorem json_replace_output_no_longer_witness :
    json_replace ['"', 'a', '_', 'X', '"', ':', '"', 'a', 'b', '"'] =
      .ok ['"', 'a', '_', 'X', '"', ':', '"', '*', '"'] ∧
    (['"', 'a', '_', 'X', '"', ':', '"', '*', '"'] : List Char).length ≤
      (['"', 'a', '_', 'X', '"', ':', '"', 'a', 'b', '"'] : List Char).length :=
  ⟨rfl, json_replace_output_no_longer _ _ rfl⟩

/-- C8: on every grammar-conforming input the transform terminates with a
result (it is total there — the fuel argument in the model is provably
sufficient); moreover each scan routine advances the cursor monotonically in
a single left-to-right pass: the filler scanner splits its input into the
copied prefix and the remainder, and the verbatim string reader consumes a
nonempty prefix of its input. -/
theorem json_replace_total_on_conforming :
    (∀ (pre0 : List Char) (ps : List JPair), conforms pre0 ps = true →
      ∃ out, json_replace (renderInput pre0 ps) = .ok out) ∧
    (∀ src : List Char, (read_json_filler src).1 ++ (read_json_filler src).2 = src) ∧
    (∀ (src out rem : List Char), read_json_string src = some (out, rem) →
      src = out ++ rem ∧ out ≠ []) := by
  refine ⟨?_, read_json_filler_split, read_json_string_split⟩
  intro pre0 ps h
  refine ⟨renderInput pre0 (ps.map maskPair), ?_⟩
  have hl := json_replace_loop_append ps pre0 ((renderInput pre0 ps).length + 1) h
    (Nat.lt_succ_of_le (le_renderInput_length pre0 ps))
  simp [json_replace, json_replace_no_try_catch, hl]

/-- Witness for C8: totality evaluated on the conforming pair `"a_X":"v"`. -/
theorem json_replace_total_on_conforming_witness :
    conforms [] [JPair.mk ['a', '_', 'X'] [':'] (.str ['v']) []] = true ∧
    ∃ out, json_replace (renderInput [] [JPair.mk ['a', '_', 'X'] [':'] (.str ['v']) []]) =
      .ok out :=
  ⟨by decide, json_replace_total_on_conforming.1 [] _ (by decide)⟩

/-- C9: once a value has been recognized as an array, `unsupportedValue` can
no longer arise while reading it: the array loop only copies bytes or reads
strings, for any fuel; consequently a value starting with an open bracket
never reports `unsupportedValue`, and `"key_X": [42, "a"]` completes with
`42` passed through unchanged and unmasked while `"a"` is masked. -/
theorem read_json_value_array_never_unsupported :
    (∀ (fuel : Nat) (src : List Char) (flag : Bool),
      read_array_body fuel src flag ≠ .error .unsupportedValue) ∧
    (∀ (rest : List Char) (flag : Bool),
      read_json_value ('[' :: rest) flag ≠ .error .unsupportedValue) ∧
    json_replace
        ['"', 'k', 'e', 'y', '_', 'X', '"', ':', ' ', '[', '4', '2', ',', ' ', '"', 'a', '"', ']'] =
      .ok ['"', 'k', 'e', 'y', '_', 'X', '"', ':', ' ', '[', '4', '2', ',', ' ', '"', '*', '"', ']'] := by
  refine ⟨read_array_body_ne_unsupported, ?_, rfl⟩
  intro rest flag h
  rw [read_json_value_bracket] at h
  cases ha : read_array_body (rest.length + 1) rest flag with
  | error e =>
    rw [ha] at h
    simp only [Except.error.injEq] at h
    cases e with
    | unsupportedValue => exact read_array_body_ne_unsupported _ rest flag ha
    | outOfBounds => simp at h
  | ok pr => rw [ha] at h; simp at h

/-- Witness for C9: the array loop evaluated on a non-string token. -/
theorem read_json_value_array_never_unsupported_witness :
    read_array_body 3 ['4', ']'] true ≠ .error .unsupportedValue :=
  read_json_value_array_never_unsupported.1 3 ['4', ']'] true

/-- C10: an empty array value `[]` is copied unchanged for either state of
the replace flag, with no error; in particular the target pair `"key_X": []`
keeps its value `[]`. -/
theorem read_json_value_empty_array_unchanged :
    (∀ (flag : Bool) (rest : List Char),
      read_json_value ('[' :: ']' :: rest) flag = .ok (['[', ']'], rest)) ∧
    json_replace ['"', 'k', 'e', 'y', '_', 'X', '"', ':', ' ', '[', ']'] =
      .ok ['"', 'k', 'e', 'y', '_', 'X', '"', ':', ' ', '[', ']'] :=
  ⟨fun _ _ => rfl, rfl⟩

/-- Witness for C10: the empty array read with the replace flag on. -/
theorem read_json_value_empty_array_unchanged_witness :
    read_json_value ('[' :: ']' :: [',']) true = .ok (['[', ']'], [',']) :=
  read_json_value_empty_array_unchanged.1 true [',']

end JsonReplace
